import Mathlib

/-!
Shallow embedding of the radioactive random-walk simulation
(simpleradioactive.ts and its compiled simpleradioactive.js twin).

The simulation is built from JavaScript generators; these are modelled by a
cursor-threaded iterable type `JSIterable`.  Numeric code (`Math.sqrt`,
`Math.cos`, `Math.sin`, `**`) is embedded over the real numbers, following the
mathematical reading its specification uses.
-/

namespace Radioactive

/-- Embeds `calculateDistance(d, theta) = Math.sqrt(1 + d ** 2 - 2 * d * Math.cos(theta))`
(the Step Composer). -/
noncomputable def calculateDistance (d theta : ℝ) : ℝ :=
  Real.sqrt (1 + d ^ 2 - 2 * d * Real.cos theta)

/-- Model of a JavaScript iterable as the `take` and `pairStreams` helpers see it:
either a generator object over an infinite sequence, whose `Symbol.iterator`
returns the generator itself (so a pull advances a cursor), or an array, whose
`Symbol.iterator` returns a fresh iterator positioned at the start on every call. -/
inductive JSIterable (α : Type) where
  | gen (f : ℕ → α) (cursor : ℕ)
  | arr (xs : List α)

/-- Embeds one `it[Symbol.iterator]().next()` pull, as performed inside `take`
and `pairStreams`: the yielded `.value` (`none` models `undefined`) together
with the iterable afterwards.  On a generator the pull advances the shared
cursor; on an array the freshly created iterator is discarded, so the array
is unchanged and the value is always its head. -/
def drawJS {α : Type} : JSIterable α → Option α × JSIterable α
  | JSIterable.gen f c => (some (f c), JSIterable.gen f (c + 1))
  | JSIterable.arr xs => (xs.head?, JSIterable.arr xs)

/-- Embeds `take(it, n)` run to completion: `n` successive `drawJS` pulls,
returning the yielded values and the iterable afterwards. -/
def takeJS {α : Type} : JSIterable α → ℕ → List (Option α) × JSIterable α
  | it, 0 => ([], it)
  | it, Nat.succ n =>
    let r := drawJS it
    let s := takeJS r.2 n
    (r.1 :: s.1, s.2)

/-- Embeds `n` yields of `pairStreams(it1, it2)`: each yield pulls one value
from each iterable via `it[Symbol.iterator]().next()`. -/
def pairTake {α β : Type} :
    JSIterable α → JSIterable β → ℕ →
      List (Option α × Option β) × JSIterable α × JSIterable β
  | it1, it2, 0 => ([], it1, it2)
  | it1, it2, Nat.succ n =>
    let r1 := drawJS it1
    let r2 := drawJS it2
    let s := pairTake r1.2 r2.2 n
    ((r1.1, r2.1) :: s.1, s.2)

/-- Embeds the reducer inside `createDistanceStream`:
`(p, c) => p >= radiusLimit ? p : calculateDistance(p, c)`. -/
noncomputable def stepFn (radiusLimit p c : ℝ) : ℝ :=
  if radiusLimit ≤ p then p else calculateDistance p c

/-- Embeds `thetaArray.reduce((p, c) => ..., 0)` from `createDistanceStream`:
the final distance of one simulated path given its drawn angles. -/
noncomputable def pathDistance (radiusLimit : ℝ) (thetas : List ℝ) : ℝ :=
  thetas.foldl (stepFn radiusLimit) 0

/-- Embeds one iteration of the `while (true)` body of `createDistanceStream`:
`const thetaArray = [...take(thetaStream, steps)]` followed by the reduce,
returning the yielded distance and the theta stream afterwards.  In every use
the theta stream is an infinite generator, so each drawn value is present;
the `getD 0` default is never exercised there. -/
noncomputable def distanceYield (steps : ℕ) (thetaStream : JSIterable ℝ)
    (radiusLimit : ℝ) : ℝ × JSIterable ℝ :=
  let t := takeJS thetaStream steps
  (pathDistance radiusLimit (t.1.map (fun o => o.getD 0)), t.2)

/-- Embeds the candidate-angle stream `map(createRandomNumberStream(), x => x * Math.PI)`
feeding `pairStreams` inside `createThetaStream`, with `x` the underlying
uniform draws. -/
noncomputable def thetaCandidate (x : ℕ → ℝ) (i : ℕ) : ℝ :=
  x i * Real.pi

/-- Embeds `createThetaStream`'s point stream
`pairStreams(map(createRandomNumberStream(), x => x * PI), createRandomNumberStream())`
run for `n` yields, with `x` and `u` the two underlying uniform streams. -/
noncomputable def pointStreamTake (x u : ℕ → ℝ) (n : ℕ) :
    List (Option ℝ × Option ℝ) × JSIterable ℝ × JSIterable ℝ :=
  pairTake (JSIterable.gen (thetaCandidate x) 0) (JSIterable.gen u 0) n

/-- Embeds the acceptance test `p[1] <= Math.sin(p[0])` of `createThetaStream`
at the `i`-th drawn point: the candidate angle is emitted exactly when this holds. -/
def thetaEmit (x u : ℕ → ℝ) (i : ℕ) : Prop :=
  u i ≤ Real.sin (thetaCandidate x i)

/-- Embeds `distances.reduce((accumulated, d) => accumulated + d, 0) / distances.length`
from the per-radius result computation. -/
noncomputable def averageDistance (distances : List ℝ) : ℝ :=
  distances.foldl (fun accumulated d => accumulated + d) 0 / distances.length

/-- Embeds `(distances.filter(d => d >= radius).length / distances.length) * 100`
from the per-radius result computation. -/
noncomputable def percentEscaped (distances : List ℝ) (radius : ℝ) : ℝ :=
  ((distances.filter (fun d => decide (radius ≤ d))).length : ℝ)
      / distances.length * 100

/-- Embeds the global constant `const steps = 5`. -/
def steps : ℕ := 5

/-- Embeds `createRadiusStream(significantFigures)` run to completion:
`n = 10 ** (significantFigures - 1)`, `unit = 1 / n`, yielding `unit * i`
for `i = 1 .. steps * n`.  The exponent is taken in ℕ, which agrees with the
JavaScript for every `significantFigures ≥ 1` (the program calls it with 3). -/
noncomputable def createRadiusStream (significantFigures : ℕ) : List ℝ :=
  let n : ℕ := 10 ^ (significantFigures - 1)
  let unit : ℝ := 1 / (n : ℝ)
  (List.range (steps * n)).map (fun i : ℕ => unit * ((i : ℝ) + 1))

/- ------------------------------------------------------------------ -/
/- Helper lemmas -/
/- ------------------------------------------------------------------ -/

/-- The radicand of the Step Composer is non-negative whenever `0 ≤ d`. -/
theorem radicand_nonneg (d theta : ℝ) (hd : 0 ≤ d) :
    0 ≤ 1 + d ^ 2 - 2 * d * Real.cos theta := by
  nlinarith [Real.cos_le_one theta, sq_nonneg (d - 1)]

/-- First step from the origin: `calculateDistance 0 theta = 1` for any angle. -/
theorem calculateDistance_zero_left (theta : ℝ) : calculateDistance 0 theta = 1 := by
  simp [calculateDistance]

/-- Straight towards the origin: `calculateDistance d 0 = |d - 1|`. -/
theorem calculateDistance_angle_zero (d : ℝ) : calculateDistance d 0 = |d - 1| := by
  have h : 1 + d ^ 2 - 2 * d * Real.cos 0 = (d - 1) ^ 2 := by
    rw [Real.cos_zero]; ring
  rw [calculateDistance, h, Real.sqrt_sq_eq_abs]

/-- Straight away from the origin: `calculateDistance d π = d + 1` for `0 ≤ d`. -/
theorem calculateDistance_angle_pi (d : ℝ) (hd : 0 ≤ d) :
    calculateDistance d Real.pi = d + 1 := by
  have h : 1 + d ^ 2 - 2 * d * Real.cos Real.pi = (d + 1) ^ 2 := by
    rw [Real.cos_pi]; ring
  rw [calculateDistance, h, Real.sqrt_sq (by linarith)]

/-- One unit step grows the distance by at most one. -/
theorem calculateDistance_le (d theta : ℝ) (hd : 0 ≤ d) :
    calculateDistance d theta ≤ d + 1 := by
  have h : 1 + d ^ 2 - 2 * d * Real.cos theta ≤ (d + 1) ^ 2 := by
    nlinarith [Real.neg_one_le_cos theta]
  calc calculateDistance d theta ≤ Real.sqrt ((d + 1) ^ 2) :=
        Real.sqrt_le_sqrt h
    _ = d + 1 := Real.sqrt_sq (by linarith)

/-- The one-step growth bound is attained exactly at `theta = π` (for `0 < d`,
`theta` in `[0, π]`). -/
theorem calculateDistance_eq_succ_iff (d theta : ℝ) (hd : 0 < d)
    (h0 : 0 ≤ theta) (h1 : theta ≤ Real.pi) :
    calculateDistance d theta = d + 1 ↔ theta = Real.pi := by
  constructor
  · intro h
    have hrad : 0 ≤ 1 + d ^ 2 - 2 * d * Real.cos theta := radicand_nonneg d theta hd.le
    have hsq : 1 + d ^ 2 - 2 * d * Real.cos theta = (d + 1) ^ 2 := by
      have hd1 : (0:ℝ) ≤ d + 1 := by linarith
      have h2 : calculateDistance d theta = Real.sqrt ((d + 1) ^ 2) := by
        rw [h, Real.sqrt_sq hd1]
      have := (Real.sqrt_inj hrad (sq_nonneg (d + 1))).mp h2
      exact this
    have hcos : Real.cos theta = -1 := by nlinarith
    have hmem : theta ∈ Set.Icc 0 Real.pi := Set.mem_Icc.mpr ⟨h0, h1⟩
    have hpi : Real.pi ∈ Set.Icc 0 Real.pi :=
      Set.mem_Icc.mpr ⟨Real.pi_pos.le, le_refl _⟩
    exact Real.injOn_cos hmem hpi (by rw [hcos, Real.cos_pi])
  · intro h
    rw [h]
    exact calculateDistance_angle_pi d hd.le

/-- Once the accumulator has reached the radius limit, the reducer of
`createDistanceStream` leaves it unchanged for the rest of the fold. -/
theorem foldl_stepFn_frozen (R a : ℝ) (l : List ℝ) (h : R ≤ a) :
    l.foldl (stepFn R) a = a := by
  induction l with
  | nil => rfl
  | cons c l ih =>
    have : stepFn R a c = a := if_pos h
    simp [List.foldl_cons, this, ih]

/-- Drawing `n` values from a generator yields its next `n` values and advances
the cursor by exactly `n`. -/
theorem takeJS_gen {α : Type} (f : ℕ → α) (c n : ℕ) :
    takeJS (JSIterable.gen f c) n =
      ((List.range n).map (fun i => some (f (c + i))), JSIterable.gen f (c + n)) := by
  induction n generalizing c with
  | zero => simp [takeJS]
  | succ n ih =>
    have h1 : ∀ i, c + 1 + i = c + (i + 1) := fun i => by omega
    simp only [takeJS, drawJS, ih (c + 1)]
    rw [List.range_succ_eq_map]
    simp [List.map_map, Function.comp, h1]

/-- Drawing `n` values from an array-backed iterable yields its head `n` times
and leaves the array unchanged. -/
theorem takeJS_arr {α : Type} (xs : List α) (n : ℕ) :
    takeJS (JSIterable.arr xs) n =
      (List.replicate n xs.head?, JSIterable.arr xs) := by
  induction n with
  | zero => simp [takeJS]
  | succ n ih =>
    simp [takeJS, drawJS, ih, List.replicate_succ]

/-- `n` yields of `pairStreams` over two generators pair their successive values
and advance both cursors by `n`. -/
theorem pairTake_gen {α β : Type} (f : ℕ → α) (g : ℕ → β) (c d n : ℕ) :
    pairTake (JSIterable.gen f c) (JSIterable.gen g d) n =
      ((List.range n).map (fun i => (some (f (c + i)), some (g (d + i)))),
        JSIterable.gen f (c + n), JSIterable.gen g (d + n)) := by
  induction n generalizing c d with
  | zero => simp [pairTake]
  | succ n ih =>
    have h1 : ∀ i, c + 1 + i = c + (i + 1) := fun i => by omega
    have h2 : ∀ i, d + 1 + i = d + (i + 1) := fun i => by omega
    simp only [pairTake, drawJS, ih (c + 1) (d + 1)]
    rw [List.range_succ_eq_map]
    simp [List.map_map, Function.comp, h1, h2]

/-- `n` yields of `pairStreams` over two array-backed iterables repeat the pair
of heads `n` times. -/
theorem pairTake_arr {α β : Type} (xs : List α) (ys : List β) (n : ℕ) :
    pairTake (JSIterable.arr xs) (JSIterable.arr ys) n =
      (List.replicate n (xs.head?, ys.head?),
        JSIterable.arr xs, JSIterable.arr ys) := by
  induction n with
  | zero => simp [pairTake]
  | succ n ih =>
    simp [pairTake, drawJS, ih, List.replicate_succ]

/-- Below the radius limit, the reducer of `createDistanceStream` applies the
Step Composer. -/
theorem stepFn_of_lt (R p c : ℝ) (h : p < R) :
    stepFn R p c = calculateDistance p c :=
  if_neg (not_le.mpr h)

/-- Folding addition from an accumulator computes the accumulator plus the sum. -/
theorem foldl_add_eq_sum (l : List ℝ) (a : ℝ) :
    l.foldl (fun accumulated d => accumulated + d) a = a + l.sum := by
  induction l generalizing a with
  | nil => simp
  | cons x l ih => simp [ih]; ring

/-- Element `k` of the mapped range underlying `createRadiusStream`. -/
theorem getD_map_range (N k : ℕ) (g : ℕ → ℝ) (hk : k < N) :
    ((List.range N).map g).getD k 0 = g k := by
  rw [List.getD_eq_getElem?_getD]
  simp [List.getElem?_map, List.getElem?_range, hk]

/- ------------------------------------------------------------------ -/
/- Claim theorems -/
/- ------------------------------------------------------------------ -/

/-- Claim C1: the Step Composer is a pure function of `(d, theta)` returning
exactly `sqrt(1 + d^2 - 2*d*cos(theta))` for every `d ≥ 0` and `theta ∈ [0, π]`. -/
theorem stepComposer_formula (d theta : ℝ) (hd : 0 ≤ d)
    (h0 : 0 ≤ theta) (h1 : theta ≤ Real.pi) :
    calculateDistance d theta = Real.sqrt (1 + d ^ 2 - 2 * d * Real.cos theta) :=
  rfl

/-- Witness for C1 at `d = 0`, `theta = 0`. -/
theorem stepComposer_formula_witness :
    (0:ℝ) ≤ 0 ∧ calculateDistance 0 0 = Real.sqrt (1 + 0 ^ 2 - 2 * 0 * Real.cos 0) :=
  And.intro (le_refl (0:ℝ))
    (stepComposer_formula 0 0 (le_refl 0) (le_refl 0) Real.pi_pos.le)

/-- Claim C2: for `d ≥ 0` and `theta ∈ [0, π]` the Step Composer's result is
non-negative and the radicand `1 + d^2 - 2*d*cos(theta)` is non-negative,
so the square root never sees a negative argument (no NaN). -/
theorem stepComposer_nonneg (d theta : ℝ) (hd : 0 ≤ d)
    (h0 : 0 ≤ theta) (h1 : theta ≤ Real.pi) :
    0 ≤ calculateDistance d theta ∧ 0 ≤ 1 + d ^ 2 - 2 * d * Real.cos theta :=
  ⟨Real.sqrt_nonneg _, radicand_nonneg d theta hd⟩

/-- Witness for C2 at `d = 1`, `theta = 0`. -/
theorem stepComposer_nonneg_witness :
    (0:ℝ) ≤ 1 ∧
      (0 ≤ calculateDistance 1 0 ∧ 0 ≤ 1 + (1:ℝ) ^ 2 - 2 * 1 * Real.cos 0) :=
  ⟨by norm_num, stepComposer_nonneg 1 0 (by norm_num) (le_refl 0) Real.pi_pos.le⟩

/-- Claim C9: degenerate identities of the Step Composer: from the origin the
step always lands at distance 1; at angle 0 the new distance is `|d - 1|`;
at angle π it is `d + 1` (for `d ≥ 0`). -/
theorem stepComposer_degenerate (d theta : ℝ) (hd : 0 ≤ d) :
    calculateDistance 0 theta = 1 ∧
      calculateDistance d 0 = |d - 1| ∧
      calculateDistance d Real.pi = d + 1 :=
  ⟨calculateDistance_zero_left theta, calculateDistance_angle_zero d,
    calculateDistance_angle_pi d hd⟩

/-- Witness for C9 at `d = 2`, `theta = 0`. -/
theorem stepComposer_degenerate_witness :
    (0:ℝ) ≤ 2 ∧
      (calculateDistance 0 0 = 1 ∧
        calculateDistance 2 0 = |(2:ℝ) - 1| ∧
        calculateDistance 2 Real.pi = 2 + 1) :=
  ⟨by norm_num, stepComposer_degenerate 2 0 (by norm_num)⟩

/-- Claim C3: early-exit freeze: if a path's distance meets or exceeds the
radius limit after step `k < stepCount`, the final distance of that path equals
the distance at step `k`; no further step composition is applied. -/
theorem distanceStream_earlyExit (R : ℝ) (thetas : List ℝ) (k : ℕ)
    (hk : k < thetas.length) (h : R ≤ pathDistance R (thetas.take k)) :
    pathDistance R thetas = pathDistance R (thetas.take k) := by
  unfold pathDistance at h ⊢
  conv_lhs => rw [← List.take_append_drop k thetas]
  rw [List.foldl_append]
  exact foldl_stepFn_frozen R _ _ h

/-- Witness for C3 with angle list `[0, 0]`, `k = 1`, radius limit `1`. -/
theorem distanceStream_earlyExit_witness :
    1 < ([0, 0] : List ℝ).length ∧
      (1:ℝ) ≤ pathDistance 1 (([0, 0] : List ℝ).take 1) ∧
      pathDistance 1 [0, 0] = pathDistance 1 (([0, 0] : List ℝ).take 1) := by
  have hlen : 1 < ([0, 0] : List ℝ).length := by norm_num
  have hfreeze : (1:ℝ) ≤ pathDistance 1 (([0, 0] : List ℝ).take 1) := by
    norm_num [pathDistance, stepFn, calculateDistance]
  exact ⟨hlen, hfreeze, distanceStream_earlyExit 1 [0, 0] 1 hlen hfreeze⟩

/-- Claim C4: each yielded path distance consumes exactly `stepCount` angles
from the shared generator-backed angle stream, regardless of the radius limit
(and hence regardless of when, or whether, early exit freezes the distance). -/
theorem distanceStream_consumption (f : ℕ → ℝ) (c stepCount : ℕ) (R : ℝ) :
    (distanceYield stepCount (JSIterable.gen f c) R).2 =
        JSIterable.gen f (c + stepCount) ∧
      (takeJS (JSIterable.gen f c) stepCount).1.length = stepCount := by
  constructor
  · simp [distanceYield, takeJS_gen]
  · simp [takeJS_gen]

/-- Claim C10: `take` re-requests an iterator from its argument on every pull,
so on a generator-backed iterable it yields the first `n` values, but on a
(restartable) non-empty array it yields the first element `n` times and leaves
the array unchanged; `pairStreams` behaves analogously on both arguments. -/
theorem take_iterator_semantics {α β : Type} (f : ℕ → α) (g : ℕ → β)
    (c d n : ℕ) (x : α) (xs : List α) (y : β) (ys : List β) :
    (takeJS (JSIterable.gen f c) n).1 =
        (List.range n).map (fun i => some (f (c + i))) ∧
      (takeJS (JSIterable.arr (x :: xs)) n).1 = List.replicate n (some x) ∧
      (takeJS (JSIterable.arr (x :: xs)) n).2 = JSIterable.arr (x :: xs) ∧
      (pairTake (JSIterable.arr (x :: xs)) (JSIterable.arr (y :: ys)) n).1 =
        List.replicate n (some x, some y) ∧
      (pairTake (JSIterable.gen f c) (JSIterable.gen g d) n).1 =
        (List.range n).map (fun i => (some (f (c + i)), some (g (d + i)))) := by
  refine ⟨?_, ?_, ?_, ?_, ?_⟩ <;>
    simp [takeJS_gen, takeJS_arr, pairTake_gen, pairTake_arr]

/-- Claim C5: every angle emitted by the theta stream is a candidate
`x * π` for a uniform draw `x` in `[0, 1)` — hence lies in `[0, π]` — and a
candidate is emitted exactly when its paired independent uniform draw `u`
satisfies `u ≤ sin(theta)`; otherwise drawing repeats. -/
theorem thetaStream_rejection (x u : ℕ → ℝ) (i n : ℕ)
    (hx0 : 0 ≤ x i) (hx1 : x i < 1) :
    (pointStreamTake x u n).1 =
        (List.range n).map (fun j => (some (thetaCandidate x j), some (u j))) ∧
      (thetaEmit x u i ↔ u i ≤ Real.sin (thetaCandidate x i)) ∧
      thetaCandidate x i = x i * Real.pi ∧
      0 ≤ thetaCandidate x i ∧ thetaCandidate x i ≤ Real.pi := by
  refine ⟨?_, Iff.rfl, rfl, ?_, ?_⟩
  · simp [pointStreamTake, pairTake_gen]
  · exact mul_nonneg hx0 Real.pi_pos.le
  · unfold thetaCandidate
    calc x i * Real.pi ≤ 1 * Real.pi :=
          mul_le_mul_of_nonneg_right hx1.le Real.pi_pos.le
      _ = Real.pi := one_mul _

/-- Witness for C5 with both uniform streams constantly `0`, `i = 0`, `n = 1`. -/
theorem thetaStream_rejection_witness :
    ((0:ℝ) ≤ (fun _ : ℕ => (0:ℝ)) 0 ∧ (fun _ : ℕ => (0:ℝ)) 0 < 1) ∧
      ((pointStreamTake (fun _ => 0) (fun _ => 0) 1).1 =
          (List.range 1).map
            (fun j => (some (thetaCandidate (fun _ => 0) j),
              some ((fun _ : ℕ => (0:ℝ)) j))) ∧
        (thetaEmit (fun _ => 0) (fun _ => 0) 0 ↔
          (fun _ : ℕ => (0:ℝ)) 0 ≤ Real.sin (thetaCandidate (fun _ => 0) 0)) ∧
        thetaCandidate (fun _ => 0) 0 = (fun _ : ℕ => (0:ℝ)) 0 * Real.pi ∧
        0 ≤ thetaCandidate (fun _ => 0) 0 ∧
        thetaCandidate (fun _ => 0) 0 ≤ Real.pi) :=
  ⟨⟨by norm_num, by norm_num⟩,
    thetaStream_rejection (fun _ => 0) (fun _ => 0) 0 1 (by norm_num) (by norm_num)⟩

/-- Claim C6: the aggregation computes `averageDistance` as the arithmetic mean
of the batch and `percentEscaped` as 100 times the count of distances at least
the radius over the total count; on `[1, 2, 3, 4]` with radius 3 they are
`2.5` and `50`. -/
theorem aggregator_mean_and_escape :
    (∀ distances : List ℝ,
        averageDistance distances = distances.sum / distances.length) ∧
      (∀ (distances : List ℝ) (radius : ℝ),
        percentEscaped distances radius =
          100 * ((distances.countP (fun d => decide (radius ≤ d)) : ℕ) : ℝ)
            / distances.length) ∧
      averageDistance [1, 2, 3, 4] = 2.5 ∧
      percentEscaped [1, 2, 3, 4] 3 = 50 := by
  have hmean : ∀ distances : List ℝ,
      averageDistance distances = distances.sum / distances.length := by
    intro distances
    rw [averageDistance, foldl_add_eq_sum, zero_add]
  have hesc : ∀ (distances : List ℝ) (radius : ℝ),
      percentEscaped distances radius =
        100 * ((distances.countP (fun d => decide (radius ≤ d)) : ℕ) : ℝ)
          / distances.length := by
    intro distances radius
    rw [percentEscaped, List.countP_eq_length_filter]
    ring
  refine ⟨hmean, hesc, ?_, ?_⟩
  · rw [hmean]
    norm_num
  · rw [hesc]
    norm_num [List.countP_cons, decide_eq_true_eq]

/-- Claim C7: the candidate radius sequence is generated deterministically from
`(steps, significantFigures)`: with `unit = 10^-(significantFigures-1)` it is
exactly `unit, 2*unit, …, steps * 10^(significantFigures-1) * unit` — a finite,
strictly ascending sequence of positive reals from one precision unit up to
`steps` inclusive, at `unit` granularity. -/
theorem radiusStream_spec (significantFigures : ℕ) :
    (createRadiusStream significantFigures).length =
        steps * 10 ^ (significantFigures - 1) ∧
      (∀ k, k < steps * 10 ^ (significantFigures - 1) →
        (createRadiusStream significantFigures).getD k 0 =
          ((k : ℝ) + 1) / ((10 ^ (significantFigures - 1) : ℕ) : ℝ)) ∧
      (createRadiusStream significantFigures).Pairwise (fun a b => a < b) ∧
      (∀ r ∈ createRadiusStream significantFigures, 0 < r) ∧
      (createRadiusStream significantFigures).getD 0 0 =
        1 / ((10 ^ (significantFigures - 1) : ℕ) : ℝ) ∧
      (createRadiusStream significantFigures).getD
          (steps * 10 ^ (significantFigures - 1) - 1) 0 = (steps : ℝ) := by
  have hn : (0:ℝ) < ((10 ^ (significantFigures - 1) : ℕ) : ℝ) := by
    exact_mod_cast pow_pos (by norm_num) (significantFigures - 1)
  have hN : 0 < steps * 10 ^ (significantFigures - 1) :=
    Nat.mul_pos (by norm_num [steps]) (pow_pos (by norm_num) _)
  have hget : ∀ k, k < steps * 10 ^ (significantFigures - 1) →
      (createRadiusStream significantFigures).getD k 0 =
        ((k : ℝ) + 1) / ((10 ^ (significantFigures - 1) : ℕ) : ℝ) := by
    intro k hk
    rw [createRadiusStream]
    rw [getD_map_range _ _ _ hk]
    field_simp
  refine ⟨?_, hget, ?_, ?_, ?_, ?_⟩
  · simp [createRadiusStream]
  · rw [createRadiusStream, List.pairwise_map]
    refine (List.pairwise_lt_range _).imp ?_
    intro a b hab
    have hab1 : (a:ℝ) + 1 < (b:ℝ) + 1 := by
      have : (a:ℝ) < (b:ℝ) := by exact_mod_cast hab
      linarith
    have hu : (0:ℝ) < 1 / ((10 ^ (significantFigures - 1) : ℕ) : ℝ) := by
      positivity
    exact mul_lt_mul_of_pos_left hab1 hu
  · intro r hr
    rw [createRadiusStream] at hr
    obtain ⟨i, _, rfl⟩ := List.mem_map.mp hr
    positivity
  · rw [hget 0 hN]
    norm_num
  · have hlt : steps * 10 ^ (significantFigures - 1) - 1 <
        steps * 10 ^ (significantFigures - 1) := Nat.sub_lt hN (by norm_num)
    rw [hget _ hlt]
    have hcast : ((steps * 10 ^ (significantFigures - 1) - 1 : ℕ) : ℝ) + 1 =
        ((steps : ℕ) : ℝ) * ((10 ^ (significantFigures - 1) : ℕ) : ℝ) := by
      have h1 : (1:ℕ) ≤ steps * 10 ^ (significantFigures - 1) := hN
      push_cast [Nat.cast_sub h1]
      ring
    rw [hcast]
    field_simp

/-- Witness for C7 at `significantFigures = 3`. -/
theorem radiusStream_spec_witness :
    (createRadiusStream 3).length = steps * 10 ^ (3 - 1) ∧
      (∀ k, k < steps * 10 ^ (3 - 1) →
        (createRadiusStream 3).getD k 0 =
          ((k : ℝ) + 1) / ((10 ^ (3 - 1) : ℕ) : ℝ)) ∧
      (createRadiusStream 3).Pairwise (fun a b => a < b) ∧
      (∀ r ∈ createRadiusStream 3, 0 < r) ∧
      (createRadiusStream 3).getD 0 0 = 1 / ((10 ^ (3 - 1) : ℕ) : ℝ) ∧
      (createRadiusStream 3).getD (steps * 10 ^ (3 - 1) - 1) 0 = (steps : ℝ) :=
  radiusStream_spec 3

/-- Counterexample to claim C8 as stated: with radius limit 5 the path with
angles `[0, π, π, π, π]` reaches final distance exactly 5 although not all of
its angles equal π (the first is 0), so distance 5 is not attained only in the
all-angles-equal-π case. -/
theorem radiusFive_counterexample :
    (0:ℝ) ∈ Set.Icc 0 Real.pi ∧
      pathDistance 5 [0, Real.pi, Real.pi, Real.pi, Real.pi] = 5 ∧
      (0:ℝ) ≠ Real.pi := by
  refine ⟨Set.mem_Icc.mpr ⟨le_refl 0, Real.pi_pos.le⟩, ?_, ne_of_lt Real.pi_pos⟩
  have e1 : stepFn 5 0 0 = 1 := by
    rw [stepFn_of_lt 5 0 0 (by norm_num)]
    exact calculateDistance_zero_left 0
  have e2 : stepFn 5 1 Real.pi = 2 := by
    rw [stepFn_of_lt 5 1 Real.pi (by norm_num),
      calculateDistance_angle_pi 1 (by norm_num)]
    norm_num
  have e3 : stepFn 5 2 Real.pi = 3 := by
    rw [stepFn_of_lt 5 2 Real.pi (by norm_num),
      calculateDistance_angle_pi 2 (by norm_num)]
    norm_num
  have e4 : stepFn 5 3 Real.pi = 4 := by
    rw [stepFn_of_lt 5 3 Real.pi (by norm_num),
      calculateDistance_angle_pi 3 (by norm_num)]
    norm_num
  have e5 : stepFn 5 4 Real.pi = 5 := by
    rw [stepFn_of_lt 5 4 Real.pi (by norm_num),
      calculateDistance_angle_pi 4 (by norm_num)]
    norm_num
  simp only [pathDistance, List.foldl_cons, List.foldl_nil]
  rw [e1, e2, e3, e4, e5]

/-- Claim C8 (amended): with stepCount 5 and escapeRadius 5, for every
sequence of five angles in `[0, π]` the composed final distance never exceeds
5, and it reaches 5 exactly when the second through fifth angles all equal π
(the first step leaves the origin, so its angle is immaterial); consequently a
batch in which every path distance is below 5 — as holds for sampler-drawn
angles, which are strictly below π — has percentEscaped equal to 0. -/
theorem radiusFive_no_escape (t1 t2 t3 t4 t5 : ℝ)
    (ht1 : t1 ∈ Set.Icc 0 Real.pi) (ht2 : t2 ∈ Set.Icc 0 Real.pi)
    (ht3 : t3 ∈ Set.Icc 0 Real.pi) (ht4 : t4 ∈ Set.Icc 0 Real.pi)
    (ht5 : t5 ∈ Set.Icc 0 Real.pi) :
    pathDistance 5 [t1, t2, t3, t4, t5] ≤ 5 ∧
      (pathDistance 5 [t1, t2, t3, t4, t5] = 5 ↔
        t2 = Real.pi ∧ t3 = Real.pi ∧ t4 = Real.pi ∧ t5 = Real.pi) ∧
      (∀ distances : List ℝ, (∀ d ∈ distances, d < 5) →
        percentEscaped distances 5 = 0) := by
  obtain ⟨ht2a, ht2b⟩ := Set.mem_Icc.mp ht2
  obtain ⟨ht3a, ht3b⟩ := Set.mem_Icc.mp ht3
  obtain ⟨ht4a, ht4b⟩ := Set.mem_Icc.mp ht4
  obtain ⟨ht5a, ht5b⟩ := Set.mem_Icc.mp ht5
  have hpath : pathDistance 5 [t1, t2, t3, t4, t5] =
      stepFn 5 (stepFn 5 (stepFn 5 (stepFn 5 (stepFn 5 0 t1) t2) t3) t4) t5 := by
    simp only [pathDistance, List.foldl_cons, List.foldl_nil]
  have hd1 : stepFn 5 0 t1 = 1 := by
    rw [stepFn_of_lt 5 0 t1 (by norm_num)]
    exact calculateDistance_zero_left t1
  set a2 := calculateDistance 1 t2 with ha2
  have ha2nn : 0 ≤ a2 := Real.sqrt_nonneg _
  have ha2le : a2 ≤ 2 := by
    have := calculateDistance_le 1 t2 (by norm_num)
    linarith
  set a3 := calculateDistance a2 t3 with ha3
  have ha3nn : 0 ≤ a3 := Real.sqrt_nonneg _
  have ha3le : a3 ≤ a2 + 1 := calculateDistance_le a2 t3 ha2nn
  set a4 := calculateDistance a3 t4 with ha4
  have ha4nn : 0 ≤ a4 := Real.sqrt_nonneg _
  have ha4le : a4 ≤ a3 + 1 := calculateDistance_le a3 t4 ha3nn
  set a5 := calculateDistance a4 t5 with ha5
  have ha5le : a5 ≤ a4 + 1 := calculateDistance_le a4 t5 ha4nn
  have hd2 : stepFn 5 1 t2 = a2 :=
    (stepFn_of_lt 5 1 t2 (by norm_num)).trans ha2.symm
  have hd3 : stepFn 5 a2 t3 = a3 :=
    (stepFn_of_lt 5 a2 t3 (by linarith)).trans ha3.symm
  have hd4 : stepFn 5 a3 t4 = a4 :=
    (stepFn_of_lt 5 a3 t4 (by linarith)).trans ha4.symm
  have hd5 : stepFn 5 a4 t5 = a5 :=
    (stepFn_of_lt 5 a4 t5 (by linarith)).trans ha5.symm
  have hfinal : pathDistance 5 [t1, t2, t3, t4, t5] = a5 := by
    rw [hpath, hd1, hd2, hd3, hd4, hd5]
  refine ⟨?_, ?_, ?_⟩
  · rw [hfinal]
    linarith
  · rw [hfinal]
    constructor
    · intro h
      have h4 : a4 = 4 := by linarith
      have h3 : a3 = 3 := by linarith
      have h2 : a2 = 2 := by linarith
      have ht5pi : t5 = Real.pi := by
        refine (calculateDistance_eq_succ_iff a4 t5 (by linarith) ht5a ht5b).mp ?_
        rw [← ha5, h, h4]
        norm_num
      have ht4pi : t4 = Real.pi := by
        refine (calculateDistance_eq_succ_iff a3 t4 (by linarith) ht4a ht4b).mp ?_
        rw [← ha4, h4, h3]
        norm_num
      have ht3pi : t3 = Real.pi := by
        refine (calculateDistance_eq_succ_iff a2 t3 (by linarith) ht3a ht3b).mp ?_
        rw [← ha3, h3, h2]
        norm_num
      have ht2pi : t2 = Real.pi := by
        refine (calculateDistance_eq_succ_iff 1 t2 (by norm_num) ht2a ht2b).mp ?_
        rw [← ha2, h2]
        norm_num
      exact ⟨ht2pi, ht3pi, ht4pi, ht5pi⟩
    · rintro ⟨h2, h3, h4, h5⟩
      subst h2
      subst h3
      subst h4
      subst h5
      have e2 : a2 = 2 := by
        rw [ha2, calculateDistance_angle_pi 1 (by norm_num)]
        norm_num
      have e3 : a3 = 3 := by
        rw [ha3, e2, calculateDistance_angle_pi 2 (by norm_num)]
        norm_num
      have e4 : a4 = 4 := by
        rw [ha4, e3, calculateDistance_angle_pi 3 (by norm_num)]
        norm_num
      rw [ha5, e4, calculateDistance_angle_pi 4 (by norm_num)]
      norm_num
  · intro distances hall
    rw [percentEscaped]
    have hfil : distances.filter (fun d => decide ((5:ℝ) ≤ d)) = [] := by
      rw [List.filter_eq_nil_iff]
      intro a ha
      simp only [decide_eq_true_eq]
      exact not_le.mpr (hall a ha)
    rw [hfil]
    simp

/-- Witness for the amended C8 with all five angles equal to 0. -/
theorem radiusFive_no_escape_witness :
    ((0:ℝ) ∈ Set.Icc 0 Real.pi) ∧
      (pathDistance 5 [0, 0, 0, 0, 0] ≤ 5 ∧
        (pathDistance 5 [0, 0, 0, 0, 0] = 5 ↔
          (0:ℝ) = Real.pi ∧ (0:ℝ) = Real.pi ∧ (0:ℝ) = Real.pi ∧
            (0:ℝ) = Real.pi) ∧
        (∀ distances : List ℝ, (∀ d ∈ distances, d < 5) →
          percentEscaped distances 5 = 0)) := by
  have h0 : (0:ℝ) ∈ Set.Icc 0 Real.pi :=
    Set.mem_Icc.mpr ⟨le_refl 0, Real.pi_pos.le⟩
  exact ⟨h0, radiusFive_no_escape 0 0 0 0 0 h0 h0 h0 h0 h0⟩

end Radioactive
